import Mathlib

/-!
Shallow embedding of `calscape_geophytes.py`.

The program reads a Calscape spreadsheet export (botanical name / common
name / plant URL columns over the same row range) and an iNaturalist taxa
CSV, builds a geophyte species set from static family and genus inclusion
rules, groups it into a family → genus → species tree, and optionally
writes a sorted CSV report.

Conventions used in this embedding:
* Python `set`s become `Finset String`; iteration over a set is modelled
  by iterating a concrete duplicate-free enumeration list, which is sound
  because every loop body here is order-independent (set union).
* Python `dict` lookups (which raise `KeyError` on a miss) become
  `Option`-valued functions; `dict` construction with later keys
  overwriting earlier ones is modelled by searching the pair list from the
  back.
* `x.split(" ")[0]` is the prefix of `x` up to the first space character.
* Python `sorted` on strings is sorting by `≤` on `String` (both compare
  lexicographically by code point); it is modelled with
  `List.insertionSort`, which the kernel can evaluate.
-/

set_option maxRecDepth 4000

/-- `x.split(" ")[0]` in Python: the prefix of the species name up to (not
including) the first space; the whole string when there is no space. -/
def genusOf (s : String) : String :=
  ⟨s.data.takeWhile (fun c => c ≠ ' ')⟩

/-- Python `"'" in x`: the cultivar marker is an apostrophe character. -/
def hasCultivar (s : String) : Bool :=
  s.data.contains '\''

/-- A `dict(zip(keys, vals))` lookup: the value paired with the last
occurrence of the key (later entries overwrite earlier ones), `none` when
the key is absent. -/
def dictLookup (pairs : List (String × String)) (k : String) : Option String :=
  (pairs.reverse.find? (fun q => q.1 == k)).map Prod.snd

/-- One data row of the Calscape spreadsheet: the three columns the
program reads (`Botanical Name` = column A, `Common Name` = column B,
`Plant Url` = column AW), all over the same row range. -/
structure SheetRow where
  botanical : String
  common : String
  url : String
deriving DecidableEq

/-- `CalscapePlants`: the three parallel column lists extracted by
`get_column` from the spreadsheet. -/
structure CalscapePlants where
  species : List String
  common_names : List String
  urls : List String
deriving DecidableEq

/-- Building `CalscapePlants` from the sheet: the three columns are read
over the same row range (row 7 to `max_row`), so the lists are parallel. -/
def CalscapePlants.ofSheet (rows : List SheetRow) : CalscapePlants :=
  { species := rows.map SheetRow.botanical
    common_names := rows.map SheetRow.common
    urls := rows.map SheetRow.url }

/-- `self.genus_to_species` keys: genera of all source species. -/
def CalscapePlants.genuses (p : CalscapePlants) : Finset String :=
  (p.species.map genusOf).toFinset

/-- `species_for_genus`: `set(self.genus_to_species.get(genus, ()))`, the
source species whose derived genus is `g` (empty when `g` is absent). -/
def CalscapePlants.species_for_genus (p : CalscapePlants) (g : String) : Finset String :=
  (p.species.filter (fun s => genusOf s == g)).toFinset

/-- `common_name_for_species`: `self.species_to_common_name[species]`,
where the dict is `dict(zip(species, common_names))`. -/
def CalscapePlants.common_name_for_species (p : CalscapePlants) (s : String) : Option String :=
  dictLookup (p.species.zip p.common_names) s

/-- `url_for_species`: `self.species_to_url[species]`. -/
def CalscapePlants.url_for_species (p : CalscapePlants) (s : String) : Option String :=
  dictLookup (p.species.zip p.urls) s

/-- One record of the iNaturalist taxa CSV (the four fields the program
reads). -/
structure TaxaRow where
  kingdom : String
  taxonRank : String
  family : String
  scientificName : String
deriving DecidableEq

/-- `InatPlantTaxa`: the taxa CSV as a list of records, in file order. -/
structure InatPlantTaxa where
  rows : List TaxaRow
deriving DecidableEq

/-- The records that pass the constructor's filter:
`row["kingdom"] == "Plantae" and row["taxonRank"] == "genus"`. -/
def InatPlantTaxa.filteredRows (t : InatPlantTaxa) : List TaxaRow :=
  t.rows.filter (fun r => r.kingdom == "Plantae" && r.taxonRank == "genus")

/-- `genuses_for_family`: `set(self.family_to_genus.get(family, ()))` —
every `scientificName` of a filtered record whose `family` is `F`
(`family_to_genus` only ever accumulates). -/
def InatPlantTaxa.genuses_for_family (t : InatPlantTaxa) (F : String) : Finset String :=
  ((t.filteredRows.filter (fun r => r.family == F)).map (fun r => r.scientificName)).toFinset

/-- `family_for_genus`: `self.genus_to_family[genus]` — the `family` of
the last filtered record with this `scientificName` (dict assignment in
file order, later rows overwrite), `none` when no such record exists. -/
def InatPlantTaxa.family_for_genus (t : InatPlantTaxa) (g : String) : Option String :=
  (t.filteredRows.reverse.find? (fun r => r.scientificName == g)).map (fun r => r.family)

/-- The static Brodiaeoideae subfamily genus list from the source. -/
def BRODIAE_SUBFAMILY_GENUSES : List String :=
  ["Androstephium", "Bessera", "Bloomeria", "Brodiaea", "Dandya",
   "Dichelostemma", "Milla", "Muilla", "Petronymphe", "Triteleia",
   "Triteleiopsis"]

/-- The static Agavaceae subfamily geophyte genus list from the source. -/
def AGAVE_SUBFAMILY_GEOPHYTE_GENUSES : List String :=
  ["Camassia", "Chlorogalum", "Hesperocallis", "Leucocrinum"]

/-- `add_genus`: `self.geophytes.update(self.calscape_plants.species_for_genus(genus))`. -/
def add_genus (p : CalscapePlants) (geo : Finset String) (g : String) : Finset String :=
  geo ∪ p.species_for_genus g

/-- A duplicate-free enumeration of the genera present in the Calscape
source table (`self.calscape_genuses` as a list). -/
def genusList (p : CalscapePlants) : List String :=
  (p.species.map genusOf).dedup

/-- `add_family`: iterate over the intersection of the Calscape genera
with the family's genera, calling `add_genus` on each.  The Python loop
iterates a set in unspecified order; since each step is a set union the
result is order-independent, and we iterate the concrete duplicate-free
enumeration of the intersection. -/
def add_family (p : CalscapePlants) (t : InatPlantTaxa) (geo : Finset String)
    (F : String) : Finset String :=
  ((genusList p).filter (fun g => decide (g ∈ t.genuses_for_family F))).foldl (add_genus p) geo

/-- The geophyte set built by `CalscapeGeophytes.__init__`: Liliaceae,
then the Brodiaeoideae genera, then Allium, then Iridaceae, then the
Agavaceae subfamily genera, then Tecophilaeaceae. -/
def geophytes (p : CalscapePlants) (t : InatPlantTaxa) : Finset String :=
  let g1 := add_family p t ∅ "Liliaceae"
  let g2 := BRODIAE_SUBFAMILY_GENUSES.foldl (add_genus p) g1
  let g3 := add_genus p g2 "Allium"
  let g4 := add_family p t g3 "Iridaceae"
  let g5 := AGAVE_SUBFAMILY_GEOPHYTE_GENUSES.foldl (add_genus p) g4
  add_family p t g5 "Tecophilaeaceae"

/-- The family actually used when inserting a species into the family
tree and when listing tree keys: `family_for_genus(genus)` with a default
for totality.  `write_csv` is only reachable after the constructor
completed, i.e. when every lookup returned `some`; under that assumption
the default is never used. -/
def famOf (t : InatPlantTaxa) (s : String) : String :=
  (t.family_for_genus (genusOf s)).getD ""

/-- A duplicate-free enumeration of the geophyte set, used to model
iterating `self.geophytes` (iteration order of a Python set is
unspecified, and every use here is order-independent). -/
def geoList (p : CalscapePlants) (t : InatPlantTaxa) : List String :=
  p.species.dedup.filter (fun s => decide (s ∈ geophytes p t))

/-- One cell of `self.family_tree`: `family_tree[F][g]` holds exactly the
geophytes whose derived genus is `g` and whose genus-to-family lookup
returned `F`. -/
def familyTreeCell (p : CalscapePlants) (t : InatPlantTaxa) (F g : String) : Finset String :=
  (geophytes p t).filter (fun s => t.family_for_genus (genusOf s) = some F ∧ genusOf s = g)

/-- The (family, genus) index pairs of the family tree. -/
def treeIndex (p : CalscapePlants) (t : InatPlantTaxa) : Finset (String × String) :=
  (geophytes p t).image (fun s => (famOf t s, genusOf s))

/-- The family-tree construction loop of `CalscapeGeophytes.__init__`:
for each geophyte, look up its genus's family — raising (here: `none`)
when the genus is absent from `genus_to_family` — and record the
`(family, genus, species)` placement. -/
def lookupAll (t : InatPlantTaxa) : List String → Option (List (String × String × String))
  | [] => some []
  | s :: rest =>
    match t.family_for_genus (genusOf s), lookupAll t rest with
    | some F, some es => some ((F, genusOf s, s) :: es)
    | _, _ => none

/-- The outcome of the family-tree construction over the geophyte set:
`none` models the constructor dying with a `KeyError`. -/
def treeEntries (p : CalscapePlants) (t : InatPlantTaxa) :
    Option (List (String × String × String)) :=
  lookupAll t (geoList p t)

/-- `print_summary`: `len(self.geophytes)`. -/
def num_geophytes (p : CalscapePlants) (t : InatPlantTaxa) : Nat :=
  (geophytes p t).card

/-- `print_summary`: `sum(1 for x in self.geophytes if "'" not in x)`. -/
def num_no_cultivars (p : CalscapePlants) (t : InatPlantTaxa) : Nat :=
  ((geophytes p t).filter (fun s => ¬ hasCultivar s)).card

/-- Executable strict lexicographic (code point) comparison on char
lists: Python's `<` on strings.  (`String.lt` itself is defined through
iterator recursion that the kernel cannot evaluate, so sorting is done
with this equivalent function; the equivalence with `String.lt` is proved
below.) -/
def lexLt : List Char → List Char → Bool
  | [], [] => false
  | [], _ :: _ => true
  | _ :: _, [] => false
  | a :: as, b :: bs => a < b || (a == b && lexLt as bs)

/-- Executable `<` on strings (code-point lexicographic, as in Python). -/
def strLtB (a b : String) : Bool :=
  lexLt a.data b.data

/-- Executable `≤` on strings. -/
def strLeB (a b : String) : Bool :=
  !(strLtB b a)

/-- Python `sorted` on a list of strings. -/
def sortedLe (l : List String) : List String :=
  l.insertionSort (fun a b => strLeB a b = true)

/-- `sorted(self.family_tree.keys())`: the families under which at least
one geophyte was inserted, in ascending order. -/
def treeFamiliesList (p : CalscapePlants) (t : InatPlantTaxa) : List String :=
  sortedLe (((geoList p t).map (famOf t)).dedup)

/-- `sorted(self.family_tree[family].keys())`: the genera inserted under
family `F`, in ascending order. -/
def treeGeneraList (p : CalscapePlants) (t : InatPlantTaxa) (F : String) : List String :=
  sortedLe ((((geoList p t).filter (fun s => decide (famOf t s = F))).map genusOf).dedup)

/-- `sorted(self.family_tree[family][genus])`: the species of one tree
cell, in ascending order. -/
def cellList (p : CalscapePlants) (t : InatPlantTaxa) (F g : String) : List String :=
  sortedLe ((geoList p t).filter (fun s => decide (famOf t s = F ∧ genusOf s = g)))

/-- The species-level skip test of `write_csv`: a species is kept unless
`exclude_cultivars and "'" in name`. -/
def keepRow (b : Bool) (s : String) : Bool :=
  !(b && hasCultivar s)

/-- One CSV record as assembled by `write_csv` (the two dict lookups may
in principle miss, hence `Option`). -/
structure CsvRow where
  family : String
  genus : String
  species : String
  common_name : Option String
  url : Option String
deriving DecidableEq

/-- The record built for one emitted species. -/
def mkCsvRow (p : CalscapePlants) (F g s : String) : CsvRow :=
  { family := F, genus := g, species := s
    common_name := p.common_name_for_species s
    url := p.url_for_species s }

/-- The rows contributed by one `(family, genus)` cell of the tree. -/
def cellRows (p : CalscapePlants) (t : InatPlantTaxa) (F g : String) (b : Bool) : List CsvRow :=
  ((cellList p t F g).filter (keepRow b)).map (mkCsvRow p F g)

/-- The full row list assembled by `write_csv` before writing: families
in sorted order, genera within each family in sorted order, species
within each genus in sorted order, skipping cultivars when asked to. -/
def csvRows (p : CalscapePlants) (t : InatPlantTaxa) (b : Bool) : List CsvRow :=
  (treeFamiliesList p t).flatMap (fun F =>
    (treeGeneraList p t F).flatMap (fun g => cellRows p t F g b))

/-- The file-system effect of `write_csv`: `if not rows: return` writes
nothing (`none`); otherwise one file is created at `path` with the rows. -/
def write_csv (p : CalscapePlants) (t : InatPlantTaxa) (path : String) (b : Bool) :
    Option (String × List CsvRow) :=
  if csvRows p t b = [] then none else some (path, csvRows p t b)

/-- Ascending "family, then genus, then species" ordering on CSV rows. -/
def rowKeyLe (r1 r2 : CsvRow) : Prop :=
  r1.family < r2.family ∨
    (r1.family = r2.family ∧
      (r1.genus < r2.genus ∨ (r1.genus = r2.genus ∧ r1.species ≤ r2.species)))

/-! ### The executable string order agrees with the standard one -/

theorem lexLt_iff_lex : ∀ as bs : List Char, lexLt as bs = true ↔ List.Lex (· < ·) as bs
  | [], [] => iff_of_false (by simp [lexLt]) (List.Lex.not_nil_right _ _)
  | [], _ :: _ => iff_of_true (by simp [lexLt]) List.Lex.nil
  | _ :: _, [] => iff_of_false (by simp [lexLt]) (List.Lex.not_nil_right _ _)
  | a :: as, b :: bs => by
    simp only [lexLt, Bool.or_eq_true, Bool.and_eq_true, beq_iff_eq, decide_eq_true_eq]
    constructor
    · rintro (h | ⟨rfl, h⟩)
      · exact List.Lex.rel h
      · exact List.Lex.cons ((lexLt_iff_lex as bs).mp h)
    · intro h
      cases h with
      | cons h => exact Or.inr ⟨rfl, (lexLt_iff_lex as bs).mpr h⟩
      | rel h => exact Or.inl h

theorem strLtB_iff {a b : String} : strLtB a b = true ↔ a < b := by
  have h1 : a < b ↔ List.Lex (· < ·) a.data b.data := by
    rw [String.lt_iff_toList_lt]
    exact Iff.rfl
  exact (lexLt_iff_lex a.data b.data).trans h1.symm

theorem strLeB_iff {a b : String} : strLeB a b = true ↔ a ≤ b :=
  calc strLeB a b = true ↔ ¬strLtB b a = true := by simp [strLeB]
    _ ↔ ¬b < a := not_congr strLtB_iff
    _ ↔ a ≤ b := not_lt

instance : IsTotal String (fun a b => strLeB a b = true) :=
  ⟨fun a b => by simp only [strLeB_iff]; exact le_total a b⟩

instance : IsTrans String (fun a b => strLeB a b = true) :=
  ⟨fun _ _ _ h1 h2 => strLeB_iff.mpr (le_trans (strLeB_iff.mp h1) (strLeB_iff.mp h2))⟩

/-- `sortedLe` output is sorted for the standard string order. -/
theorem sortedLe_sorted (l : List String) : (sortedLe l).Sorted (fun a b => a ≤ b) :=
  (List.sorted_insertionSort _ l).imp (fun h => strLeB_iff.mp h)

/-- `sortedLe` permutes its input. -/
theorem sortedLe_perm (l : List String) : List.Perm (sortedLe l) l :=
  List.perm_insertionSort _ l

theorem mem_sortedLe {l : List String} {a : String} : a ∈ sortedLe l ↔ a ∈ l :=
  (sortedLe_perm l).mem_iff

theorem sortedLe_nodup {l : List String} (h : l.Nodup) : (sortedLe l).Nodup :=
  (sortedLe_perm l).nodup_iff.mpr h

/-! ### Membership characterizations of the inclusion steps -/

theorem mem_species_for_genus {p : CalscapePlants} {g s : String} :
    s ∈ p.species_for_genus g ↔ s ∈ p.species ∧ genusOf s = g := by
  simp [CalscapePlants.species_for_genus, List.mem_filter]

theorem mem_genuses {p : CalscapePlants} {g : String} :
    g ∈ p.genuses ↔ ∃ s ∈ p.species, genusOf s = g := by
  simp [CalscapePlants.genuses, List.mem_map]

theorem mem_genusList {p : CalscapePlants} {g : String} :
    g ∈ genusList p ↔ ∃ s ∈ p.species, genusOf s = g := by
  simp [genusList, List.mem_dedup, List.mem_map]

theorem mem_add_genus {p : CalscapePlants} {geo : Finset String} {g s : String} :
    s ∈ add_genus p geo g ↔ s ∈ geo ∨ (s ∈ p.species ∧ genusOf s = g) := by
  simp [add_genus, mem_species_for_genus]

theorem mem_foldl_add_genus {p : CalscapePlants} {s : String} :
    ∀ (l : List String) (geo : Finset String),
      s ∈ l.foldl (add_genus p) geo ↔ s ∈ geo ∨ (s ∈ p.species ∧ genusOf s ∈ l)
  | [], geo => by simp
  | g :: l, geo => by
    rw [List.foldl_cons, mem_foldl_add_genus l (add_genus p geo g), mem_add_genus]
    simp only [List.mem_cons]
    tauto

theorem mem_add_family {p : CalscapePlants} {t : InatPlantTaxa} {geo : Finset String}
    {F s : String} :
    s ∈ add_family p t geo F ↔
      s ∈ geo ∨ (s ∈ p.species ∧ genusOf s ∈ t.genuses_for_family F) := by
  rw [add_family, mem_foldl_add_genus]
  simp only [List.mem_filter, decide_eq_true_eq, mem_genusList]
  constructor
  · rintro (h | ⟨hs, _, hg⟩)
    · exact Or.inl h
    · exact Or.inr ⟨hs, hg⟩
  · rintro (h | ⟨hs, hg⟩)
    · exact Or.inl h
    · exact Or.inr ⟨hs, ⟨s, hs, rfl⟩, hg⟩

/-- The master characterization of the geophyte set: a source species is
a geophyte exactly when its derived genus matches one of the static
inclusion rules. -/
theorem mem_geophytes {p : CalscapePlants} {t : InatPlantTaxa} {s : String} :
    s ∈ geophytes p t ↔
      s ∈ p.species ∧
        (genusOf s ∈ t.genuses_for_family "Liliaceae" ∨
          genusOf s ∈ BRODIAE_SUBFAMILY_GENUSES ∨
          genusOf s = "Allium" ∨
          genusOf s ∈ t.genuses_for_family "Iridaceae" ∨
          genusOf s ∈ AGAVE_SUBFAMILY_GEOPHYTE_GENUSES ∨
          genusOf s ∈ t.genuses_for_family "Tecophilaeaceae") := by
  rw [geophytes]
  simp only [mem_add_family, mem_foldl_add_genus, mem_add_genus, Finset.not_mem_empty,
    false_or]
  tauto

theorem geophytes_subset {p : CalscapePlants} {t : InatPlantTaxa} {s : String}
    (h : s ∈ geophytes p t) : s ∈ p.species :=
  (mem_geophytes.mp h).1

theorem mem_geoList {p : CalscapePlants} {t : InatPlantTaxa} {s : String} :
    s ∈ geoList p t ↔ s ∈ geophytes p t := by
  simp only [geoList, List.mem_filter, List.mem_dedup, decide_eq_true_eq]
  exact ⟨fun h => h.2, fun h => ⟨geophytes_subset h, h⟩⟩

theorem geoList_nodup (p : CalscapePlants) (t : InatPlantTaxa) : (geoList p t).Nodup :=
  (List.nodup_dedup p.species).filter _

/-! ### Taxonomy index lemmas -/

theorem mem_genuses_for_family {t : InatPlantTaxa} {F g : String} :
    g ∈ t.genuses_for_family F ↔
      ∃ r ∈ t.filteredRows, r.family = F ∧ r.scientificName = g := by
  simp only [InatPlantTaxa.genuses_for_family, List.mem_toFinset, List.mem_map,
    List.mem_filter, beq_iff_eq]
  constructor
  · rintro ⟨r, ⟨hr, hF⟩, hg⟩
    exact ⟨r, hr, hF, hg⟩
  · rintro ⟨r, hr, hF, hg⟩
    exact ⟨r, ⟨hr, hF⟩, hg⟩

/-- The genus-to-family index always points back into the family-to-genus
index: the last row that set `genus_to_family[g] = F` also put `g` into
`family_to_genus[F]`. -/
theorem family_for_genus_mem {t : InatPlantTaxa} {g F : String}
    (h : t.family_for_genus g = some F) : g ∈ t.genuses_for_family F := by
  rw [InatPlantTaxa.family_for_genus] at h
  cases hf : t.filteredRows.reverse.find? (fun r => r.scientificName == g) with
  | none => rw [hf] at h; simp at h
  | some r =>
    rw [hf] at h
    simp only [Option.map_some', Option.some.injEq] at h
    have hr : r ∈ t.filteredRows := List.mem_reverse.mp (List.mem_of_find?_eq_some hf)
    have hg : r.scientificName = g := by simpa using List.find?_some hf
    exact mem_genuses_for_family.mpr ⟨r, hr, h, hg⟩

/-- When every genus carries a single family value among the filtered
rows, the two indexes are mutually consistent. -/
theorem genuses_for_family_iff_of_functional {t : InatPlantTaxa}
    (hfun : ∀ r1 ∈ t.filteredRows, ∀ r2 ∈ t.filteredRows,
      r1.scientificName = r2.scientificName → r1.family = r2.family)
    (g F : String) :
    g ∈ t.genuses_for_family F ↔ t.family_for_genus g = some F := by
  constructor
  · intro h
    obtain ⟨r, hr, hF, hg⟩ := mem_genuses_for_family.mp h
    have hsome : (t.filteredRows.reverse.find? (fun r => r.scientificName == g)).isSome :=
      List.find?_isSome.mpr ⟨r, List.mem_reverse.mpr hr, by simp [hg]⟩
    obtain ⟨r', hr'⟩ := Option.isSome_iff_exists.mp hsome
    have hr'mem : r' ∈ t.filteredRows := List.mem_reverse.mp (List.mem_of_find?_eq_some hr')
    have hr'g : r'.scientificName = g := by simpa using List.find?_some hr'
    have hfam : r'.family = F := (hfun r' hr'mem r hr (hr'g.trans hg.symm)).trans hF
    rw [InatPlantTaxa.family_for_genus, hr']
    simp [hfam]
  · exact family_for_genus_mem

/-! ### Genus derivation for malformed (single-token) binomials -/

theorem genusOf_no_space {s : String} (h : ∀ c ∈ s.data, c ≠ ' ') : genusOf s = s := by
  obtain ⟨d⟩ := s
  rw [genusOf]
  have : d.takeWhile (fun c => decide (c ≠ ' ')) = d :=
    List.takeWhile_eq_self_iff.mpr (by simpa using h)
  simp only [this]

/-! ### Shared concrete example data for witnesses -/

def exSheet : List SheetRow :=
  [⟨"Brodiaea elegans", "harvest brodiaea", "u1"⟩,
   ⟨"Brodiaea jolonensis", "chaparral brodiaea", "u2"⟩]

def exPlants : CalscapePlants :=
  CalscapePlants.ofSheet exSheet

def exTaxa : InatPlantTaxa :=
  ⟨[⟨"Plantae", "genus", "Asparagaceae", "Brodiaea"⟩]⟩

def exCultivarPlants : CalscapePlants :=
  CalscapePlants.ofSheet [⟨"Camassia quamash 'Orion'", "camas cultivar", "u3"⟩]

def exCultivarTaxa : InatPlantTaxa :=
  ⟨[⟨"Plantae", "genus", "Asparagaceae", "Camassia"⟩]⟩

/-! ### Claim C2: add_family adds exactly the intersection expansion -/

/-- C2: for every family name `F`, `add_family F` leaves the geophyte set
equal to its prior value united with exactly the source species whose
derived genus lies in the intersection of the Calscape genera with the
genera the taxonomy maps to `F`; no other species is added. -/
theorem add_family_adds_exactly_intersection (p : CalscapePlants) (t : InatPlantTaxa)
    (geo : Finset String) (F : String) :
    add_family p t geo F =
      geo ∪ (p.species.filter
        (fun s => decide (genusOf s ∈ p.genuses ∩ t.genuses_for_family F))).toFinset := by
  ext s
  rw [mem_add_family]
  simp only [Finset.mem_union, List.mem_toFinset, List.mem_filter, decide_eq_true_eq,
    Finset.mem_inter, mem_genuses]
  constructor
  · rintro (h | ⟨hs, hg⟩)
    · exact Or.inl h
    · exact Or.inr ⟨hs, ⟨s, hs, rfl⟩, hg⟩
  · rintro (h | ⟨hs, _, hg⟩)
    · exact Or.inl h
    · exact Or.inr ⟨hs, hg⟩

/-! ### Claim C3: add_genus on the static explicit genus lists -/

/-- C3: for every genus `g` of the static explicit lists (Brodiaeoideae,
Agavaceae subfamily, and the standalone "Allium"), `add_genus g` adds all
source species of `g` directly — membership afterwards needs no family
filter and no taxonomy lookup — and leaves the set unchanged when `g` has
no source species. -/
theorem add_genus_static_list (p : CalscapePlants) (geo : Finset String) (g s : String)
    (_hg : g ∈ BRODIAE_SUBFAMILY_GENUSES ++ AGAVE_SUBFAMILY_GEOPHYTE_GENUSES ++ ["Allium"]) :
    (s ∈ add_genus p geo g ↔ s ∈ geo ∨ (s ∈ p.species ∧ genusOf s = g)) ∧
      (p.species_for_genus g = ∅ → add_genus p geo g = geo) := by
  refine ⟨mem_add_genus, fun h => ?_⟩
  rw [add_genus, h, Finset.union_empty]

theorem add_genus_static_list_witness :
    "Allium" ∈ BRODIAE_SUBFAMILY_GENUSES ++ AGAVE_SUBFAMILY_GEOPHYTE_GENUSES ++ ["Allium"] ∧
      (("Allium unifolium" ∈ add_genus exPlants ∅ "Allium" ↔
          "Allium unifolium" ∈ (∅ : Finset String) ∨
            ("Allium unifolium" ∈ exPlants.species ∧ genusOf "Allium unifolium" = "Allium")) ∧
        (exPlants.species_for_genus "Allium" = ∅ → add_genus exPlants ∅ "Allium" = ∅)) :=
  ⟨by decide, add_genus_static_list exPlants ∅ "Allium" "Allium unifolium" (by decide)⟩

/-! ### Claim C9: consistency of the two taxonomy indexes -/

/-- A taxonomy file in which the same genus appears under two families. -/
def dupTaxa : InatPlantTaxa :=
  ⟨[⟨"Plantae", "genus", "Fam1", "Genus1"⟩,
    ⟨"Plantae", "genus", "Fam2", "Genus1"⟩]⟩

/-- C9 refuted as stated: with a taxonomy file where genus `Genus1`
appears under `Fam1` and then `Fam2`, `Genus1` is in
`genuses_for_family "Fam1"` yet `family_for_genus "Genus1"` is
`some "Fam2"`, so the claimed equivalence fails. -/
theorem taxa_indexes_counterexample :
    ¬("Genus1" ∈ dupTaxa.genuses_for_family "Fam1" ↔
        dupTaxa.family_for_genus "Genus1" = some "Fam1") := by
  decide

/-- C9 (amended): `family_for_genus g = some F` always implies
`g ∈ genuses_for_family F`; the full equivalence holds whenever each
genus `scientificName` carries a single family value among the filtered
rows, but can fail when the same genus appears with different families
(the genus-to-family dict keeps only the last row's family while the
family-to-genus index keeps the genus under every family). -/
theorem taxa_indexes_consistent (t : InatPlantTaxa) (g F : String) :
    (t.family_for_genus g = some F → g ∈ t.genuses_for_family F) ∧
      ((∀ r1 ∈ t.filteredRows, ∀ r2 ∈ t.filteredRows,
          r1.scientificName = r2.scientificName → r1.family = r2.family) →
        (g ∈ t.genuses_for_family F ↔ t.family_for_genus g = some F)) :=
  ⟨family_for_genus_mem, fun hfun => genuses_for_family_iff_of_functional hfun g F⟩

theorem taxa_indexes_consistent_witness :
    (∀ r1 ∈ exTaxa.filteredRows, ∀ r2 ∈ exTaxa.filteredRows,
        r1.scientificName = r2.scientificName → r1.family = r2.family) ∧
      ((exTaxa.family_for_genus "Brodiaea" = some "Asparagaceae" →
          "Brodiaea" ∈ exTaxa.genuses_for_family "Asparagaceae") ∧
        ("Brodiaea" ∈ exTaxa.genuses_for_family "Asparagaceae" ↔
          exTaxa.family_for_genus "Brodiaea" = some "Asparagaceae")) :=
  ⟨by decide,
    ⟨(taxa_indexes_consistent exTaxa "Brodiaea" "Asparagaceae").1,
      (taxa_indexes_consistent exTaxa "Brodiaea" "Asparagaceae").2 (by decide)⟩⟩

/-! ### Claim C10: species names without a space -/

/-- C10: when a species name holds no space character, genus derivation
totally (no error) returns the whole name; such a species is grouped in
`genus_to_species` under that one-token genus, and the family-tree lookup
for it queries the taxonomy at that same one-token genus. -/
theorem no_space_species_genus (p : CalscapePlants) (t : InatPlantTaxa) (s : String)
    (h : ∀ c ∈ s.data, c ≠ ' ') :
    genusOf s = s ∧ (s ∈ p.species → s ∈ p.species_for_genus s) ∧
      t.family_for_genus (genusOf s) = t.family_for_genus s :=
  ⟨genusOf_no_space h,
    fun hs => mem_species_for_genus.mpr ⟨hs, genusOf_no_space h⟩,
    by rw [genusOf_no_space h]⟩

theorem no_space_species_genus_witness :
    (∀ c ∈ "Camassia".data, c ≠ ' ') ∧
      (genusOf "Camassia" = "Camassia" ∧
        ("Camassia" ∈ exPlants.species → "Camassia" ∈ exPlants.species_for_genus "Camassia") ∧
        exTaxa.family_for_genus (genusOf "Camassia") = exTaxa.family_for_genus "Camassia") :=
  ⟨by decide, no_space_species_genus exPlants exTaxa "Camassia" (by decide)⟩

/-! ### Claim C4: a lookup miss during tree construction is fatal -/

theorem lookupAll_eq_none {t : InatPlantTaxa} :
    ∀ l : List String,
      lookupAll t l = none ↔ ∃ s ∈ l, t.family_for_genus (genusOf s) = none
  | [] => by simp [lookupAll]
  | s :: rest => by
    rw [lookupAll]
    cases hf : t.family_for_genus (genusOf s) with
    | none =>
      simp only [List.mem_cons]
      exact iff_of_true trivial ⟨s, Or.inl rfl, hf⟩
    | some F =>
      cases hl : lookupAll t rest with
      | none =>
        simp only [List.mem_cons]
        refine iff_of_true trivial ?_
        obtain ⟨x, hx, hxn⟩ := (lookupAll_eq_none rest).mp hl
        exact ⟨x, Or.inr hx, hxn⟩
      | some es =>
        simp only [List.mem_cons]
        refine iff_of_false (by simp) ?_
        rintro ⟨x, hx | hx, hxn⟩
        · rw [hx, hf] at hxn
          exact Option.some_ne_none F hxn
        · have := (lookupAll_eq_none rest).mpr ⟨x, hx, hxn⟩
          rw [hl] at this
          exact Option.some_ne_none es this

/-- C4: building the family tree fails (a fatal missing-key error, no
silent drop) exactly when some geophyte's derived genus is absent from
the genus-to-family index; when every genus is mapped, construction
completes. -/
theorem construction_fails_iff_unmapped (p : CalscapePlants) (t : InatPlantTaxa) :
    treeEntries p t = none ↔
      ∃ s ∈ geophytes p t, t.family_for_genus (genusOf s) = none := by
  rw [treeEntries, lookupAll_eq_none]
  constructor <;> rintro ⟨s, hs, hn⟩
  · exact ⟨s, mem_geoList.mp hs, hn⟩
  · exact ⟨s, mem_geoList.mpr hs, hn⟩

/-! ### Claim C1: the family tree partitions the geophyte set -/

theorem mem_familyTreeCell {p : CalscapePlants} {t : InatPlantTaxa} {F g s : String} :
    s ∈ familyTreeCell p t F g ↔
      s ∈ geophytes p t ∧ t.family_for_genus (genusOf s) = some F ∧ genusOf s = g := by
  simp [familyTreeCell, Finset.mem_filter]

/-- C1: assuming every genus-to-family lookup over the geophyte set
succeeds, the family tree partitions the geophyte set exactly: each
geophyte lies in exactly one `(family, genus)` cell, every cell member is
a geophyte, and the union of the cells over the tree's index is the whole
geophyte set. -/
theorem family_tree_partitions (p : CalscapePlants) (t : InatPlantTaxa)
    (H : ∀ s ∈ geophytes p t, (t.family_for_genus (genusOf s)).isSome) :
    (∀ s ∈ geophytes p t, ∃! fg : String × String, s ∈ familyTreeCell p t fg.1 fg.2) ∧
      (∀ F g, familyTreeCell p t F g ⊆ geophytes p t) ∧
      (treeIndex p t).biUnion (fun fg => familyTreeCell p t fg.1 fg.2) = geophytes p t := by
  refine ⟨?_, ?_, ?_⟩
  · intro s hs
    obtain ⟨F0, hF0⟩ := Option.isSome_iff_exists.mp (H s hs)
    refine ⟨(F0, genusOf s), mem_familyTreeCell.mpr ⟨hs, hF0, rfl⟩, ?_⟩
    rintro ⟨F, g⟩ hmem
    obtain ⟨_, hF, hg⟩ := mem_familyTreeCell.mp hmem
    rw [hF0] at hF
    exact Prod.ext (Option.some.inj hF).symm hg.symm
  · intro F g s hs
    exact (mem_familyTreeCell.mp hs).1
  · ext s
    simp only [Finset.mem_biUnion, treeIndex, Finset.mem_image]
    constructor
    · rintro ⟨fg, _, hcell⟩
      exact (mem_familyTreeCell.mp hcell).1
    · intro hs
      obtain ⟨F0, hF0⟩ := Option.isSome_iff_exists.mp (H s hs)
      have hfam : famOf t s = F0 := by rw [famOf, hF0]; rfl
      refine ⟨(famOf t s, genusOf s), ⟨s, hs, rfl⟩, ?_⟩
      exact mem_familyTreeCell.mpr ⟨hs, by rw [hfam]; exact hF0, rfl⟩

theorem family_tree_partitions_witness :
    (∀ s ∈ geophytes exPlants exTaxa, (exTaxa.family_for_genus (genusOf s)).isSome) ∧
      ((∀ s ∈ geophytes exPlants exTaxa,
          ∃! fg : String × String, s ∈ familyTreeCell exPlants exTaxa fg.1 fg.2) ∧
        (∀ F g, familyTreeCell exPlants exTaxa F g ⊆ geophytes exPlants exTaxa) ∧
        (treeIndex exPlants exTaxa).biUnion
            (fun fg => familyTreeCell exPlants exTaxa fg.1 fg.2) =
          geophytes exPlants exTaxa) :=
  ⟨by decide, family_tree_partitions exPlants exTaxa (by decide)⟩

/-! ### Claim C5: the CSV rows are sorted -/

theorem pairwise_flatMap_of {α β : Type} {R : β → β → Prop} {l : List α} {f : α → List β}
    (h1 : ∀ a ∈ l, (f a).Pairwise R)
    (h2 : l.Pairwise (fun a b => ∀ x ∈ f a, ∀ y ∈ f b, R x y)) :
    (l.flatMap f).Pairwise R := by
  induction l with
  | nil => simp
  | cons a l ih =>
    rw [List.flatMap_cons, List.pairwise_append]
    rw [List.pairwise_cons] at h2
    refine ⟨h1 a (List.mem_cons_self a l),
      ih (fun x hx => h1 x (List.mem_cons_of_mem a hx)) h2.2, ?_⟩
    intro x hx y hy
    obtain ⟨b, hb, hyb⟩ := List.mem_flatMap.mp hy
    exact h2.1 b hb x hx y hyb

theorem sortedLe_pairwise_lt {l : List String} (h : l.Nodup) :
    (sortedLe l).Pairwise (fun a b => a < b) :=
  ((sortedLe_sorted l).and (sortedLe_nodup h)).imp
    (fun hab => lt_of_le_of_ne hab.1 hab.2)

theorem treeFamiliesList_pairwise (p : CalscapePlants) (t : InatPlantTaxa) :
    (treeFamiliesList p t).Pairwise (fun a b => a < b) :=
  sortedLe_pairwise_lt (List.nodup_dedup _)

theorem treeGeneraList_pairwise (p : CalscapePlants) (t : InatPlantTaxa) (F : String) :
    (treeGeneraList p t F).Pairwise (fun a b => a < b) :=
  sortedLe_pairwise_lt (List.nodup_dedup _)

theorem mem_cellRows {p : CalscapePlants} {t : InatPlantTaxa} {F g : String} {b : Bool}
    {r : CsvRow} (hr : r ∈ cellRows p t F g b) :
    r.family = F ∧ r.genus = g ∧ r.species ∈ cellList p t F g ∧ keepRow b r.species = true := by
  simp only [cellRows, List.mem_map, List.mem_filter] at hr
  obtain ⟨s, ⟨hs, hk⟩, rfl⟩ := hr
  exact ⟨rfl, rfl, hs, hk⟩

theorem cellRows_pairwise (p : CalscapePlants) (t : InatPlantTaxa) (F g : String) (b : Bool) :
    (cellRows p t F g b).Pairwise rowKeyLe := by
  have hs : (cellList p t F g).Sorted (fun a b => a ≤ b) := sortedLe_sorted _
  have hf : ((cellList p t F g).filter (keepRow b)).Pairwise (fun a b => a ≤ b) :=
    List.Pairwise.sublist (List.filter_sublist _) hs
  rw [cellRows, List.pairwise_map]
  exact hf.imp (fun h => Or.inr ⟨rfl, Or.inr ⟨rfl, h⟩⟩)

/-- C5: for every input and both values of the cultivar-exclusion flag,
the CSV row sequence is sorted ascending by family, then genus within a
family, then species within a genus (lexical string order). -/
theorem csv_rows_sorted (p : CalscapePlants) (t : InatPlantTaxa) (b : Bool) :
    (csvRows p t b).Pairwise rowKeyLe := by
  rw [csvRows]
  apply pairwise_flatMap_of
  · intro F _
    apply pairwise_flatMap_of
    · intro g _
      exact cellRows_pairwise p t F g b
    · refine (treeGeneraList_pairwise p t F).imp ?_
      intro g1 g2 hlt x hx y hy
      obtain ⟨hxF, hxg, _, _⟩ := mem_cellRows hx
      obtain ⟨hyF, hyg, _, _⟩ := mem_cellRows hy
      exact Or.inr ⟨hxF.trans hyF.symm, Or.inl (by rw [hxg, hyg]; exact hlt)⟩
  · refine (treeFamiliesList_pairwise p t).imp ?_
    intro F1 F2 hlt x hx y hy
    obtain ⟨g1, _, hx1⟩ := List.mem_flatMap.mp hx
    obtain ⟨g2, _, hy1⟩ := List.mem_flatMap.mp hy
    obtain ⟨hxF, _, _, _⟩ := mem_cellRows hx1
    obtain ⟨hyF, _, _, _⟩ := mem_cellRows hy1
    exact Or.inl (by rw [hxF, hyF]; exact hlt)

/-! ### Counting machinery for the CSV row list -/

/-- The `(family, genus)` pairs enumerated by the two nested loops of
`write_csv`, in iteration order. -/
def pairsList (p : CalscapePlants) (t : InatPlantTaxa) : List (String × String) :=
  (treeFamiliesList p t).flatMap (fun F => (treeGeneraList p t F).map (fun g => (F, g)))

theorem csvRows_eq_pairs (p : CalscapePlants) (t : InatPlantTaxa) (b : Bool) :
    csvRows p t b = (pairsList p t).flatMap (fun q => cellRows p t q.1 q.2 b) := by
  rw [csvRows, pairsList, List.flatMap_assoc]
  simp only [List.flatMap_map]

theorem mem_treeFamiliesList {p : CalscapePlants} {t : InatPlantTaxa} {F : String} :
    F ∈ treeFamiliesList p t ↔ ∃ s ∈ geoList p t, famOf t s = F := by
  simp [treeFamiliesList, mem_sortedLe, List.mem_dedup, List.mem_map]

theorem mem_treeGeneraList {p : CalscapePlants} {t : InatPlantTaxa} {F g : String} :
    g ∈ treeGeneraList p t F ↔ ∃ s ∈ geoList p t, famOf t s = F ∧ genusOf s = g := by
  simp only [treeGeneraList, mem_sortedLe, List.mem_dedup, List.mem_map, List.mem_filter,
    decide_eq_true_eq]
  constructor
  · rintro ⟨s, ⟨hs, hF⟩, hg⟩
    exact ⟨s, hs, hF, hg⟩
  · rintro ⟨s, hs, hF, hg⟩
    exact ⟨s, ⟨hs, hF⟩, hg⟩

theorem nodup_flatMap_of {α β : Type} {l : List α} {f : α → List β} (proj : β → α)
    (hl : l.Nodup) (hf : ∀ a ∈ l, (f a).Nodup)
    (hproj : ∀ a ∈ l, ∀ x ∈ f a, proj x = a) :
    (l.flatMap f).Nodup := by
  induction l with
  | nil => simp
  | cons a l ih =>
    rw [List.flatMap_cons, List.nodup_append]
    rw [List.nodup_cons] at hl
    refine ⟨hf a (List.mem_cons_self a l),
      ih hl.2 (fun x hx => hf x (List.mem_cons_of_mem a hx))
        (fun x hx => hproj x (List.mem_cons_of_mem a hx)), ?_⟩
    intro x hx hx2
    obtain ⟨c, hc, hxc⟩ := List.mem_flatMap.mp hx2
    have h1 : proj x = a := hproj a (List.mem_cons_self a l) x hx
    have h2 : proj x = c := hproj c (List.mem_cons_of_mem a hc) x hxc
    exact hl.1 (h1 ▸ h2 ▸ hc)

theorem pairsList_nodup (p : CalscapePlants) (t : InatPlantTaxa) :
    (pairsList p t).Nodup := by
  refine nodup_flatMap_of Prod.fst (sortedLe_nodup (List.nodup_dedup _)) ?_ ?_
  · intro F _
    exact (sortedLe_nodup (List.nodup_dedup _)).map
      (fun g1 g2 h => by simpa using congrArg Prod.snd h)
  · intro F _ x hx
    obtain ⟨g, _, rfl⟩ := List.mem_map.mp hx
    rfl

theorem pairsList_cover {p : CalscapePlants} {t : InatPlantTaxa} {s : String}
    (hs : s ∈ geoList p t) : (famOf t s, genusOf s) ∈ pairsList p t :=
  List.mem_flatMap.mpr
    ⟨famOf t s, mem_treeFamiliesList.mpr ⟨s, hs, rfl⟩,
      List.mem_map.mpr ⟨genusOf s, mem_treeGeneraList.mpr ⟨s, hs, rfl, rfl⟩, rfl⟩⟩

theorem length_flatMap_congr {α β γ : Type} (l : List α) (f : α → List β) (g : α → List γ)
    (h : ∀ a ∈ l, (f a).length = (g a).length) :
    (l.flatMap f).length = (l.flatMap g).length := by
  induction l with
  | nil => rfl
  | cons a l ih =>
    rw [List.flatMap_cons, List.flatMap_cons, List.length_append, List.length_append,
      h a (List.mem_cons_self a l), ih (fun x hx => h x (List.mem_cons_of_mem a hx))]

theorem length_filter_partition {α : Type} (a c : α → Bool) (l : List α) :
    (l.filter (fun s => a s && c s)).length + (l.filter (fun s => !a s && c s)).length
      = (l.filter c).length := by
  induction l with
  | nil => rfl
  | cons x l ih =>
    by_cases ha : a x = true <;> by_cases hc : c x = true <;>
      simp [List.filter_cons, ha, hc] <;> omega

theorem flatMap_congr_of_mem {α β : Type} {l : List α} {f g : α → List β}
    (h : ∀ a ∈ l, f a = g a) : l.flatMap f = l.flatMap g := by
  induction l with
  | nil => rfl
  | cons a l ih =>
    rw [List.flatMap_cons, List.flatMap_cons, h a (List.mem_cons_self a l),
      ih (fun x hx => h x (List.mem_cons_of_mem a hx))]

/-- Splitting a filtered list over a duplicate-free list of keys covering
all its elements: the blocks of a keyed partition together have the same
length as the undivided filter. -/
theorem length_flatMap_filters {α K : Type} [DecidableEq K] (kf : α → K) (keep : α → Bool) :
    ∀ keys : List K, keys.Nodup → ∀ E : List α, (∀ s ∈ E, kf s ∈ keys) →
      (keys.flatMap (fun k => E.filter (fun s => decide (kf s = k) && keep s))).length
        = (E.filter keep).length
  | [], _, E, hcov => by
    have hE : E = [] := List.eq_nil_iff_forall_not_mem.mpr
      (fun s hs => absurd (hcov s hs) (List.not_mem_nil _))
    rw [hE]
    rfl
  | k :: keys, hnd, E, hcov => by
    rw [List.nodup_cons] at hnd
    rw [List.flatMap_cons, List.length_append]
    have hrest : ∀ k' ∈ keys,
        E.filter (fun s => decide (kf s = k') && keep s)
          = (E.filter (fun s => !decide (kf s = k))).filter
              (fun s => decide (kf s = k') && keep s) := by
      intro k' hk'
      rw [List.filter_filter]
      refine (List.filter_congr ?_).symm
      intro s _
      by_cases h : kf s = k'
      · have hkk : ¬k' = k := fun e => hnd.1 (e ▸ hk')
        simp [h, hkk]
      · simp [h]
    have hcov2 : ∀ s ∈ E.filter (fun s => !decide (kf s = k)), kf s ∈ keys := by
      intro s hs
      obtain ⟨hsE, hsne⟩ := List.mem_filter.mp hs
      rcases List.mem_cons.mp (hcov s hsE) with heq | hmem
      · simp [heq] at hsne
      · exact hmem
    rw [flatMap_congr_of_mem hrest,
      length_flatMap_filters kf keep keys hnd.2 _ hcov2]
    have hE'filter : (E.filter (fun s => !decide (kf s = k))).filter keep
        = E.filter (fun s => !decide (kf s = k) && keep s) := by
      rw [List.filter_filter]
      exact List.filter_congr (fun s _ => Bool.and_comm _ _)
    rw [hE'filter]
    exact length_filter_partition (fun s => decide (kf s = k)) keep E

theorem cellRows_length (p : CalscapePlants) (t : InatPlantTaxa) (F g : String) (b : Bool) :
    (cellRows p t F g b).length
      = ((geoList p t).filter
          (fun s => decide ((famOf t s, genusOf s) = (F, g)) && keepRow b s)).length := by
  rw [cellRows, List.length_map, cellList,
    List.Perm.length_eq ((sortedLe_perm _).filter (keepRow b)), List.filter_filter]
  apply congrArg List.length
  apply List.filter_congr
  intro s _
  rw [Bool.and_comm]
  congr 1
  rw [decide_eq_decide]
  simp [Prod.ext_iff]

theorem csvRows_length (p : CalscapePlants) (t : InatPlantTaxa) (b : Bool) :
    (csvRows p t b).length = ((geoList p t).filter (keepRow b)).length := by
  rw [csvRows_eq_pairs]
  have h1 : ((pairsList p t).flatMap (fun q => cellRows p t q.1 q.2 b)).length
      = ((pairsList p t).flatMap (fun q => (geoList p t).filter
          (fun s => decide ((famOf t s, genusOf s) = q) && keepRow b s))).length := by
    apply length_flatMap_congr
    rintro ⟨F, g⟩ _
    exact cellRows_length p t F g b
  rw [h1]
  exact length_flatMap_filters (fun s => (famOf t s, genusOf s)) (keepRow b)
    (pairsList p t) (pairsList_nodup p t) (geoList p t) (fun s hs => pairsList_cover hs)

theorem geoList_filter_length (p : CalscapePlants) (t : InatPlantTaxa) (keep : String → Bool) :
    ((geoList p t).filter keep).length
      = ((geophytes p t).filter (fun s => keep s = true)).card := by
  rw [← List.toFinset_card_of_nodup ((geoList_nodup p t).filter keep)]
  congr 1
  ext s
  simp only [List.mem_toFinset, List.mem_filter, Finset.mem_filter, mem_geoList]

theorem num_geophytes_eq (p : CalscapePlants) (t : InatPlantTaxa) :
    num_geophytes p t = ((geoList p t).filter (keepRow false)).length := by
  have h : (geophytes p t).filter (fun s => keepRow false s = true) = geophytes p t :=
    Finset.filter_true_of_mem (fun s _ => rfl)
  rw [geoList_filter_length, h, num_geophytes]

theorem num_no_cultivars_eq (p : CalscapePlants) (t : InatPlantTaxa) :
    num_no_cultivars p t = ((geoList p t).filter (keepRow true)).length := by
  rw [geoList_filter_length, num_no_cultivars]
  congr 1
  apply Finset.filter_congr
  intro s _
  simp [keepRow]

/-! ### Claim C6: cultivar exclusion -/

/-- C6: with cultivar exclusion on, no emitted row's species name holds
the cultivar marker (apostrophe), and the number of rows excluded
relative to a run without the flag is exactly the total geophyte count
minus the non-cultivar count printed by the summary. -/
theorem exclude_cultivars_rows (p : CalscapePlants) (t : InatPlantTaxa) :
    (∀ r ∈ csvRows p t true, hasCultivar r.species = false) ∧
      (csvRows p t false).length - (csvRows p t true).length
        = num_geophytes p t - num_no_cultivars p t := by
  constructor
  · intro r hr
    obtain ⟨F, _, hr1⟩ := List.mem_flatMap.mp hr
    obtain ⟨g, _, hr2⟩ := List.mem_flatMap.mp hr1
    obtain ⟨_, _, _, hk⟩ := mem_cellRows hr2
    simpa [keepRow] using hk
  · rw [csvRows_length, csvRows_length, num_geophytes_eq, num_no_cultivars_eq]

/-! ### Claim C7: an empty row set writes no file -/

/-- C7: whenever the computed row set is empty — in particular when the
geophyte set itself is empty, or when exclusion is on and every geophyte
is a cultivar — `write_csv` creates no file at all, whatever output path
was supplied. -/
theorem write_csv_empty_no_file (p : CalscapePlants) (t : InatPlantTaxa) (path : String)
    (b : Bool)
    (h : geophytes p t = ∅ ∨ csvRows p t b = [] ∨
      (b = true ∧ ∀ s ∈ geophytes p t, hasCultivar s = true)) :
    write_csv p t path b = none := by
  rw [write_csv]
  suffices hrows : csvRows p t b = [] by rw [if_pos hrows]
  rcases h with h | h | ⟨hb, hall⟩
  · apply List.eq_nil_of_length_eq_zero
    have hg : geoList p t = [] := List.eq_nil_iff_forall_not_mem.mpr
      (fun s hs => Finset.not_mem_empty s (h ▸ mem_geoList.mp hs))
    rw [csvRows_length, hg]
    rfl
  · exact h
  · apply List.eq_nil_of_length_eq_zero
    rw [csvRows_length, hb, List.length_eq_zero, List.filter_eq_nil_iff]
    intro s hs
    simp [keepRow, hall s (mem_geoList.mp hs)]

theorem write_csv_empty_no_file_witness :
    (geophytes exCultivarPlants exCultivarTaxa = ∅ ∨
        csvRows exCultivarPlants exCultivarTaxa true = [] ∨
        (true = true ∧ ∀ s ∈ geophytes exCultivarPlants exCultivarTaxa,
          hasCultivar s = true)) ∧
      write_csv exCultivarPlants exCultivarTaxa "geophytes.csv" true = none :=
  ⟨by decide, write_csv_empty_no_file exCultivarPlants exCultivarTaxa "geophytes.csv" true
    (by decide)⟩

/-! ### Claim C8: common-name and URL lookups for emitted rows succeed -/

theorem exists_mem_zip_left :
    ∀ {l1 l2 : List String}, l1.length = l2.length → ∀ {a : String}, a ∈ l1 →
      ∃ b, (a, b) ∈ l1.zip l2
  | [], _, _, a, ha => absurd ha (List.not_mem_nil a)
  | x :: l1, [], hlen, a, _ => by simp at hlen
  | x :: l1, y :: l2, hlen, a, ha => by
    rcases List.mem_cons.mp ha with rfl | hmem
    · exact ⟨y, List.mem_cons_self _ _⟩
    · obtain ⟨b, hb⟩ := exists_mem_zip_left (Nat.succ_injective hlen) hmem
      exact ⟨b, List.mem_cons_of_mem _ hb⟩

theorem dictLookup_isSome_of_mem {l1 l2 : List String} (hlen : l1.length = l2.length)
    {a : String} (ha : a ∈ l1) : (dictLookup (l1.zip l2) a).isSome := by
  rw [dictLookup, Option.isSome_map']
  obtain ⟨b, hb⟩ := exists_mem_zip_left hlen ha
  exact List.find?_isSome.mpr ⟨(a, b), List.mem_reverse.mpr hb, by simp⟩

theorem mem_csvRows_species {p : CalscapePlants} {t : InatPlantTaxa} {b : Bool} {r : CsvRow}
    (hr : r ∈ csvRows p t b) :
    r.species ∈ p.species ∧ r.common_name = p.common_name_for_species r.species ∧
      r.url = p.url_for_species r.species := by
  obtain ⟨F, _, hr1⟩ := List.mem_flatMap.mp hr
  obtain ⟨g, _, hr2⟩ := List.mem_flatMap.mp hr1
  simp only [cellRows, List.mem_map, List.mem_filter] at hr2
  obtain ⟨s, ⟨hs, _⟩, rfl⟩ := hr2
  refine ⟨?_, rfl, rfl⟩
  have hs2 : s ∈ geoList p t := by
    have := mem_sortedLe.mp (by rw [cellList] at hs; exact hs)
    exact (List.mem_filter.mp this).1
  exact List.mem_dedup.mp (List.mem_filter.mp hs2).1

/-- C8: every row emitted by `write_csv` carries a species read from the
Botanical Name column, and since the common-name and URL columns were
read over the same row range, both dict lookups for it succeed — the
missing-key branch is unreachable for emitted rows. -/
theorem csv_lookups_succeed (sheet : List SheetRow) (t : InatPlantTaxa) (b : Bool)
    (r : CsvRow) (hr : r ∈ csvRows (CalscapePlants.ofSheet sheet) t b) :
    r.common_name.isSome ∧ r.url.isSome := by
  obtain ⟨hsp, hcn, hurl⟩ := mem_csvRows_species hr
  constructor
  · rw [hcn, CalscapePlants.common_name_for_species]
    exact dictLookup_isSome_of_mem (by simp [CalscapePlants.ofSheet]) hsp
  · rw [hurl, CalscapePlants.url_for_species]
    exact dictLookup_isSome_of_mem (by simp [CalscapePlants.ofSheet]) hsp

theorem csv_lookups_succeed_witness :
    (mkCsvRow (CalscapePlants.ofSheet exSheet) "Asparagaceae" "Brodiaea" "Brodiaea elegans"
        ∈ csvRows (CalscapePlants.ofSheet exSheet) exTaxa false) ∧
      ((mkCsvRow (CalscapePlants.ofSheet exSheet) "Asparagaceae" "Brodiaea"
          "Brodiaea elegans").common_name.isSome ∧
        (mkCsvRow (CalscapePlants.ofSheet exSheet) "Asparagaceae" "Brodiaea"
          "Brodiaea elegans").url.isSome) :=
  ⟨by decide, csv_lookups_succeed exSheet exTaxa false _ (by decide)⟩
